import Mathlib

/-!
Shallow embedding of the LED frame-delivery and pixel-buffer subsystem of
the Alis_2 appliance, together with proofs of its specified properties.

Sources embedded:
* `app/animation_controller.py` — `AnimationControllerThread` (framebuffer,
  `update_pixel`, `clear_panel`, `_animate`, `set_mode`,
  `framebuffer_rgb_bytes`).
* `app/web_server.py` — `WebServerThread._delta_indices`,
  `_encode_rle_rows`, and the variant-selection logic of `_broadcast_loop`.
* `app/led_controller.py` — `build_solid_grb`, `send_frame`, and the
  `LEDThread.run` worker loop.

Bytes are modelled as `Nat` values (the code keeps them in `[0,255]` by
masking); byte strings are `List Nat`.  Python's `int(c) & 0xFF` on an
arbitrary (possibly negative) integer equals reduction modulo 256, which is
`Int.emod c 256` here.
-/

namespace Alis

/-- Python's `int(c) & 0xFF`: bitwise AND with 255 on an arbitrary-precision
two's-complement integer, i.e. reduction modulo 256 (nonnegative result). -/
def mask8 (c : Int) : Nat := (c % 256).toNat

/-! ## AnimationControllerThread state (app/animation_controller.py) -/

/-- The mutable state of `AnimationControllerThread` that the claims touch:
fixed dimensions, the row-major framebuffer `_frame` (`[y][x]`, RGB triples),
the `_dirty_evt` flag and the current `mode` string. -/
structure AnimState where
  width : Nat
  height : Nat
  frame : List (List (Nat × Nat × Nat))
  dirty : Bool
  mode : String

/-- `__init__`: all-black `height × width` framebuffer, mode `"static"`,
dirty event initially unset. -/
def initAnim (w h : Nat) : AnimState :=
  { width := w
    height := h
    frame := List.replicate h (List.replicate w (0, 0, 0))
    dirty := false
    mode := "static" }

/-- `set_mode(mode)`: accepted only if `mode in {"static","animation","draw"}`,
otherwise the call is ignored. -/
def set_mode (s : AnimState) (m : String) : AnimState :=
  if m = "static" ∨ m = "animation" ∨ m = "draw" then { s with mode := m } else s

/-- `update_pixel(x, y, color)`: bounds-checked write of the masked colour;
the dirty event is set unconditionally (the `set()` is outside the `if`). -/
def update_pixel (s : AnimState) (x y : Int) (c : Int × Int × Int) : AnimState :=
  let s1 :=
    if 0 ≤ x ∧ x < (s.width : Int) ∧ 0 ≤ y ∧ y < (s.height : Int) then
      { s with
        frame := s.frame.set y.toNat
          ((s.frame.getD y.toNat []).set x.toNat (mask8 c.1, mask8 c.2.1, mask8 c.2.2)) }
    else s
  { s1 with dirty := true }

/-- `clear_panel()`: every cell is overwritten with `(0,0,0)`, dirty set. -/
def clear_panel (s : AnimState) : AnimState :=
  { s with frame := s.frame.map (fun row => row.map (fun _ => (0, 0, 0))), dirty := true }

/-- The demo palette of `_animate`. -/
def animColors : List (Nat × Nat × Nat) := [(255, 0, 0), (0, 255, 0), (0, 0, 255)]

/-- `_animate(t)`: pick `colors[int(t) % 3]` and overwrite every cell with it
(`t` enters as the integer part of the wall-clock time). -/
def animate_step (s : AnimState) (t : Nat) : AnimState :=
  let col := animColors.getD (t % 3) (0, 0, 0)
  { s with frame := s.frame.map (fun row => row.map (fun _ => col)) }

/-- `self._frame[y][x]` as read by the snapshot loops. -/
def pixelAt (s : AnimState) (y x : Nat) : Nat × Nat × Nat :=
  (s.frame.getD y []).getD x (0, 0, 0)

/-- `framebuffer_rgb_bytes()`: row-major RGB bytes (each channel masked with
`& 0xFF` as in the source), together with the width and height. -/
def framebuffer_rgb_bytes (s : AnimState) : List Nat × Nat × Nat :=
  ((List.range s.height).flatMap fun y =>
    (List.range s.width).flatMap fun x =>
      [(pixelAt s y x).1 % 256, (pixelAt s y x).2.1 % 256, (pixelAt s y x).2.2 % 256],
   s.width, s.height)

/-- The operations that mutate the framebuffer (claim C8): `update_pixel`,
`clear_panel` and the `_animate` step of the run loop. -/
inductive AnimOp
  | upd (x y : Int) (c : Int × Int × Int)
  | clear
  | anim (t : Nat)

/-- Apply one framebuffer operation. -/
def applyOp (s : AnimState) : AnimOp → AnimState
  | .upd x y c => update_pixel s x y c
  | .clear => clear_panel s
  | .anim t => animate_step s t

/-- All three channels of a stored pixel are 8-bit. -/
def chanOK (p : Nat × Nat × Nat) : Prop := p.1 < 256 ∧ p.2.1 < 256 ∧ p.2.2 < 256

/-! ## WebServerThread frame diff / compression helpers (app/web_server.py) -/

/-- The byte slice `buf[3*i : 3*i+3]` — the RGB triplet of pixel `i`. -/
def tripletAt (l : List Nat) (i : Nat) : List Nat := (l.drop (3 * i)).take 3

/-- `_delta_indices(old, new)`: if `old` is empty or the lengths differ,
every pixel index of `new`; otherwise the indices whose 3-byte slices
differ (the Python loop appends to `diffs` in increasing `i`). -/
def _delta_indices (oldBuf newBuf : List Nat) : List Nat :=
  if oldBuf = [] ∨ oldBuf.length ≠ newBuf.length then
    List.range (newBuf.length / 3)
  else
    (List.range (newBuf.length / 3)).filter fun i =>
      decide (tripletAt oldBuf i ≠ tripletAt newBuf i)

/-- Split a byte list into consecutive 3-byte slices (how the encoder's
`buf[i:i+3]` walk, stepping `i` by 3, partitions a row). -/
def chunks3 : List Nat → List (List Nat)
  | [] => []
  | a :: l => (a :: l.take 2) :: chunks3 (l.drop 2)
termination_by l => l.length
decreasing_by simp; omega

/-- The `while i < end` loop of `_encode_rle_rows`: `cur` is the colour of
the open run, `run` its length so far; a boundary is forced at `run = 255`. -/
def rleLoop : List (List Nat) → List Nat → Nat → List (Nat × List Nat)
  | [], cur, run => [(run, cur)]
  | nxt :: rest, cur, run =>
    if nxt = cur ∧ run < 255 then rleLoop rest cur (run + 1)
    else (run, cur) :: rleLoop rest nxt 1

/-- `_encode_rle_rows(buf, w, h)`: per display row, greedy run-length
encoding of the row's 3-byte colour slices, runs capped at 255.  (The
second match arm reproduces the `w = 0` corner of the source, where
`cur = buf[start:start+3]` is emitted with run 1 without entering the loop.) -/
def _encode_rle_rows (buf : List Nat) (w h : Nat) : List (List (Nat × List Nat)) :=
  (List.range h).map fun y =>
    match chunks3 ((buf.drop (y * w * 3)).take (w * 3)) with
    | [] => [(1, (buf.drop (y * w * 3)).take 3)]
    | c :: cs => rleLoop cs c 1

/-- Expand an encoded row back to its pixel (triplet) list. -/
def expandPix (row : List (Nat × List Nat)) : List (List Nat) :=
  row.flatMap fun rc => List.replicate rc.1 rc.2

/-- Expand an encoded row back to its byte string. -/
def expandRow (row : List (Nat × List Nat)) : List Nat :=
  (expandPix row).flatten

/-- Decode `_encode_rle_rows` output: expand every run of every row and
concatenate the rows. -/
def decode_rle (rows : List (List (Nat × List Nat))) : List Nat :=
  (rows.map expandRow).flatten

/-! ## WebServerThread broadcast tick (app/web_server.py `_broadcast_loop`) -/

/-- The preview state carried between broadcast ticks: `_last_buf`,
`_last_w`, `_last_h`. -/
structure MirrorState where
  last_buf : List Nat
  last_w : Nat
  last_h : Nat

/-- The two preview wire variants a tick can emit. -/
inductive Preview
  | delta (w h : Nat) (indices : List Nat) (rgb : List (List Nat))
  | frame_rle (w h : Nat) (rows : List (List (Nat × List Nat)))

def isDelta : Preview → Bool
  | .delta .. => true
  | .frame_rle .. => false

def isFrameRle : Preview → Bool
  | .delta .. => false
  | .frame_rle .. => true

/-- One iteration of `_broadcast_loop` after a successful snapshot
`(buf, w, h)` with at least one subscriber: compute `diffs`, choose the
variant (`use_delta` iff the previous dimensions match and
`0 < len(diffs) < npx * 0.4`; the float comparison `len(diffs) < npx * 0.4`
agrees exactly with the rational comparison `5 * len(diffs) < 2 * npx` for
every panel size representable here), build the payload, and update the
stored state (`_last_w/_last_h` are reassigned only on the RLE branch,
`_last_buf` always). -/
def broadcastTick (st : MirrorState) (buf : List Nat) (w h : Nat) :
    Preview × MirrorState :=
  let diffs := _delta_indices st.last_buf buf
  let npx := buf.length / 3
  if st.last_w = w ∧ st.last_h = h ∧ 0 < diffs.length ∧ 5 * diffs.length < 2 * npx then
    (Preview.delta w h diffs
      (diffs.map fun i => [buf.getD (i * 3) 0, buf.getD (i * 3 + 1) 0, buf.getD (i * 3 + 2) 0]),
     { st with last_buf := buf })
  else
    (Preview.frame_rle w h (_encode_rle_rows buf w h),
     { last_buf := buf, last_w := w, last_h := h })

/-! ## LED controller (app/led_controller.py) -/

/-- `build_solid_grb(w, h, su, rgb)`: one GRB triplet (each channel masked
with `& 0xFF`) replicated `w*h*su` times. -/
def build_solid_grb (w h su : Nat) (rgb : Nat × Nat × Nat) : List Nat :=
  (List.replicate (w * h * su) [rgb.2.1 % 256, rgb.1 % 256, rgb.2.2 % 256]).flatten

/-- `send_frame(ser, payload_grb, brightness)`: the byte string written to
the transport — 7-byte header (sync `AB CD F1 00`, the pixel count
`num = len(payload_grb) // 3` as `num & 0xFF` then `(num >> 8) & 0xFF`, and
`brightness & 0xFF`) followed by the GRB payload. -/
def send_frame (payload_grb : List Nat) (brightness : Nat) : List Nat :=
  [0xAB, 0xCD, 0xF1, 0x00, payload_grb.length / 3 % 256,
    payload_grb.length / 3 / 256 % 256, brightness % 256] ++ payload_grb

/-- The constructor parameters of `LEDThread` the run loop reads, with
`brightness` standing for the value `_get_brightness()` returns. -/
structure LEDConfig where
  width : Nat
  height : Nat
  strips_used : Nat
  brightness : Nat

/-- The environment a run of `LEDThread.run` observes, as oracles indexed by
a poll counter: `stop n` is the value of `stop_evt.is_set()` at the n-th
poll, `pat n` the value of `_current_pattern()`, `rdy n` whether the n-th
boot-time `readline` returned `"RDY"`, and `timeLeft n` whether the relevant
wall-clock bound (`< 5.0` s in the boot loop, `< hold_sec` in the hold loop)
still held at that poll. -/
structure RunEnv where
  stop : Nat → Bool
  pat : Nat → String
  rdy : Nat → Bool
  timeLeft : Nat → Bool

/-- `_set_all(color)`: the frame `send_frame` writes for a solid colour. -/
def setAllFrame (cfg : LEDConfig) (c : Nat × Nat × Nat) : List Nat :=
  send_frame (build_solid_grb cfg.width cfg.height cfg.strips_used c) cfg.brightness

/-- `_clear_immediate()`: `_set_all((0, 0, 0))`. -/
def clearFrame (cfg : LEDConfig) : List Nat := setAllFrame cfg (0, 0, 0)

/-- The ordered palette of the `rgb_cycle` pattern. -/
def rgbPaletteColors : List (Nat × Nat × Nat) := [(25, 0, 0), (0, 25, 0), (0, 0, 25)]

/-- The inner hold loop
`while not stop and pattern == "rgb_cycle" and time < hold_sec: sleep(0.05)`:
emits no frames; returns the advanced poll counter.  `fuel` bounds the
number of sleeps (real time guarantees termination in the source). -/
def holdLoop (env : RunEnv) : Nat → Nat → Nat
  | 0, n => n
  | fuel + 1, n =>
    if env.stop n then n + 1
    else if env.pat (n + 1) ≠ "rgb_cycle" then n + 2
    else if env.timeLeft (n + 2) then holdLoop env fuel (n + 3)
    else n + 3

/-- The `for name, col in (...)` body of the `rgb_cycle` branch: before each
colour, break if stopped or the pattern changed; otherwise send the solid
frame and run the hold loop.  Returns the emitted frames and the counter. -/
def cycleFor (env : RunEnv) (cfg : LEDConfig) (fuel : Nat) :
    List (Nat × Nat × Nat) → Nat → List (List Nat) × Nat
  | [], n => ([], n)
  | col :: rest, n =>
    if env.stop n ∨ env.pat (n + 1) ≠ "rgb_cycle" then ([], n + 2)
    else
      let n2 := holdLoop env fuel (n + 2)
      let step := cycleFor env cfg fuel rest n2
      (setAllFrame cfg col :: step.1, step.2)

/-- The main `while not self.stop_evt.is_set()` loop of `LEDThread.run`,
tracking `last_pattern`; returns the frames sent inside the loop. -/
def mainLoop (env : RunEnv) (cfg : LEDConfig) :
    Nat → Nat → Option String → List (List Nat)
  | 0, _, _ => []
  | fuel + 1, n, last =>
    if env.stop n then []
    else
      let pattern := env.pat (n + 1)
      let clearFs : List (List Nat) :=
        if last = some "rgb_cycle" ∧ pattern ≠ "rgb_cycle" then [clearFrame cfg] else []
      if pattern = "rgb_cycle" then
        let step := cycleFor env cfg fuel rgbPaletteColors (n + 2)
        clearFs ++ step.1 ++ mainLoop env cfg fuel step.2 (some pattern)
      else
        clearFs ++ mainLoop env cfg fuel (n + 2) (some pattern)

/-- The boot-time `RDY` wait loop
(`while time - t0 < 5.0 and not stop: readline; break on "RDY"`); emits no
frames, returns the advanced poll counter. -/
def rdyLoop (env : RunEnv) : Nat → Nat → Nat
  | 0, n => n
  | fuel + 1, n =>
    if env.timeLeft n then
      if env.stop (n + 1) then n + 2
      else if env.rdy (n + 2) then n + 3
      else rdyLoop env fuel (n + 3)
    else n + 1

/-- `LEDThread.run`, observed as the sequence of frames written to the
transport.  With no serial handle the loop idles and returns without the
`try/finally` block, sending nothing; with a handle, the boot loop runs,
then the main loop, and the `finally` block always sends one clearing
frame. -/
def ledRun (env : RunEnv) (cfg : LEDConfig) (hasSerial : Bool) (fuel : Nat) :
    List (List Nat) :=
  if hasSerial then
    mainLoop env cfg fuel (rdyLoop env fuel 0) none ++ [clearFrame cfg]
  else []

/-! ## Basic lemmas about the framebuffer -/

theorem mask8_lt (c : Int) : mask8 c < 256 := by
  have h : c % 256 < 256 := Int.emod_lt_of_pos c (by norm_num)
  have h0 : 0 ≤ c % 256 := Int.emod_nonneg c (by norm_num)
  unfold mask8
  omega

/-- Setting an in-range index then reading it back with `getD`. -/
theorem getD_set_self {α : Type} (l : List α) (n : Nat) (a d : α) (h : n < l.length) :
    (l.set n a).getD n d = a := by
  induction l generalizing n with
  | nil => simp at h
  | cons x xs ih =>
    cases n with
    | zero => rfl
    | succ m =>
      simp only [List.set_cons_succ, List.getD_cons_succ]
      exact ih m (by simpa using h)

/-- Length of a `flatMap` over `List.range` with constant chunk length. -/
theorem length_flatMap_range {α : Type} (f : Nat → List α) (k : Nat)
    (hf : ∀ t, (f t).length = k) : ∀ n, ((List.range n).flatMap f).length = n * k := by
  intro n
  induction n with
  | zero => simp
  | succ m ih =>
    rw [List.range_succ, List.flatMap_append]
    simp [ih, hf, Nat.succ_mul]

/-- Indexing a `flatMap` over `List.range` with constant chunk length. -/
theorem getElem?_flatMap_range {α : Type} (k : Nat) :
    ∀ (i n j : Nat) (f : Nat → List α), (∀ t, (f t).length = k) → i < n → j < k →
      ((List.range n).flatMap f)[i * k + j]? = (f i)[j]? := by
  intro i
  induction i with
  | zero =>
    intro n j f hf hi hj
    obtain ⟨m, rfl⟩ : ∃ m, n = m + 1 := ⟨n - 1, by omega⟩
    rw [List.range_succ_eq_map, List.flatMap_cons, List.getElem?_append]
    have : j < (f 0).length := by rw [hf]; simpa using hj
    simp [this]
  | succ i ih =>
    intro n j f hf hi hj
    obtain ⟨m, rfl⟩ : ∃ m, n = m + 1 := ⟨n - 1, by omega⟩
    have hmul : (i + 1) * k = i * k + k := Nat.succ_mul i k
    have hle : (f 0).length ≤ (i + 1) * k + j := by rw [hf]; omega
    rw [List.range_succ_eq_map, List.flatMap_cons, List.flatMap_map,
      List.getElem?_append_right hle, hf]
    have harith : (i + 1) * k + j - k = i * k + j := by omega
    rw [harith]
    have := ih m j (fun a => f (a + 1)) (fun t => hf (t + 1)) (by omega) hj
    simpa [Nat.succ_eq_add_one] using this

/-- Byte `3*(y*W+x)+c` of a snapshot is channel `c` of pixel `(x, y)`. -/
theorem snapshot_getElem (s : AnimState) (y x c : Nat)
    (hy : y < s.height) (hx : x < s.width) (hc : c < 3) :
    (framebuffer_rgb_bytes s).1[3 * (y * s.width + x) + c]? =
      [(pixelAt s y x).1 % 256, (pixelAt s y x).2.1 % 256,
        (pixelAt s y x).2.2 % 256][c]? := by
  show ((List.range s.height).flatMap fun yy =>
      (List.range s.width).flatMap fun xx =>
        [(pixelAt s yy xx).1 % 256, (pixelAt s yy xx).2.1 % 256,
          (pixelAt s yy xx).2.2 % 256])[3 * (y * s.width + x) + c]? = _
  have hinner : ∀ t, ((List.range s.width).flatMap fun xx =>
      [(pixelAt s t xx).1 % 256, (pixelAt s t xx).2.1 % 256,
        (pixelAt s t xx).2.2 % 256]).length = s.width * 3 := by
    intro t
    exact length_flatMap_range (fun xx =>
      [(pixelAt s t xx).1 % 256, (pixelAt s t xx).2.1 % 256,
        (pixelAt s t xx).2.2 % 256]) 3 (fun _ => rfl) _
  have hoff : 3 * (y * s.width + x) + c = y * (s.width * 3) + (x * 3 + c) := by ring
  rw [hoff,
    getElem?_flatMap_range (s.width * 3) y s.height (x * 3 + c) _ hinner hy (by omega),
    getElem?_flatMap_range 3 x s.width c (fun xx =>
      [(pixelAt s y xx).1 % 256, (pixelAt s y xx).2.1 % 256,
        (pixelAt s y xx).2.2 % 256]) (fun _ => rfl) hx hc]

/-- An in-bounds `update_pixel` stores exactly the masked triplet. -/
theorem pixelAt_update (s : AnimState) (x y : Int) (c : Int × Int × Int)
    (hf : s.frame.length = s.height)
    (hr : ∀ row ∈ s.frame, row.length = s.width)
    (hx0 : 0 ≤ x) (hx1 : x < (s.width : Int)) (hy0 : 0 ≤ y) (hy1 : y < (s.height : Int)) :
    pixelAt (update_pixel s x y c) y.toNat x.toNat =
      (mask8 c.1, mask8 c.2.1, mask8 c.2.2) := by
  have hcond : 0 ≤ x ∧ x < (s.width : Int) ∧ 0 ≤ y ∧ y < (s.height : Int) :=
    ⟨hx0, hx1, hy0, hy1⟩
  have hyn : y.toNat < s.frame.length := by rw [hf]; omega
  have hrowmem : s.frame.getD y.toNat [] ∈ s.frame := by
    rw [List.getD_eq_getElem s.frame [] hyn]
    exact List.getElem_mem hyn
  have hxn : x.toNat < (s.frame.getD y.toNat []).length := by
    rw [hr _ hrowmem]; omega
  unfold update_pixel pixelAt
  rw [if_pos hcond]
  simp only
  rw [getD_set_self _ _ _ _ hyn, getD_set_self _ _ _ _ hxn]

set_option maxRecDepth 8192 in
/-- C1 — The claim as written is FALSE on the code: `update_pixel` does not
clamp channels to `[0,255]`, it masks them with `& 0xFF`.  At `(0,0)` with
colour `(256, 0, 0)`, snapshot byte 0 is `0`, not the clamped value `255`. -/
theorem c1_counterexample :
    (framebuffer_rgb_bytes (update_pixel (initAnim 16 16) 0 0 (256, 0, 0))).1[0]? =
        some 0 ∧ (0 : Nat) ≠ 255 := by
  constructor
  · rfl
  · decide

/-- C1 (amended) — For every in-bounds `(x, y)` and every integer RGB
triplet, `update_pixel` then `framebuffer_rgb_bytes` yields at byte offset
`3*(y*W+x)` exactly the triplet with each channel reduced modulo 256
(Python's `& 0xFF`) rather than clamped. -/
theorem c1_update_pixel_snapshot (s : AnimState) (x y : Int) (c : Int × Int × Int)
    (hf : s.frame.length = s.height)
    (hr : ∀ row ∈ s.frame, row.length = s.width)
    (hx0 : 0 ≤ x) (hx1 : x < (s.width : Int)) (hy0 : 0 ≤ y) (hy1 : y < (s.height : Int)) :
    (framebuffer_rgb_bytes (update_pixel s x y c)).1[3 * (y.toNat * s.width + x.toNat)]? =
        some (mask8 c.1) ∧
      (framebuffer_rgb_bytes (update_pixel s x y c)).1[3 * (y.toNat * s.width + x.toNat) + 1]? =
        some (mask8 c.2.1) ∧
      (framebuffer_rgb_bytes (update_pixel s x y c)).1[3 * (y.toNat * s.width + x.toNat) + 2]? =
        some (mask8 c.2.2) := by
  set s' := update_pixel s x y c with hs'
  have hw : s'.width = s.width := by
    rw [hs']; unfold update_pixel
    by_cases hcond : 0 ≤ x ∧ x < (s.width : Int) ∧ 0 ≤ y ∧ y < (s.height : Int) <;>
      simp [hcond]
  have hh : s'.height = s.height := by
    rw [hs']; unfold update_pixel
    by_cases hcond : 0 ≤ x ∧ x < (s.width : Int) ∧ 0 ≤ y ∧ y < (s.height : Int) <;>
      simp [hcond]
  have hpix : pixelAt s' y.toNat x.toNat = (mask8 c.1, mask8 c.2.1, mask8 c.2.2) :=
    pixelAt_update s x y c hf hr hx0 hx1 hy0 hy1
  have hyn : y.toNat < s'.height := by rw [hh]; omega
  have hxn : x.toNat < s'.width := by rw [hw]; omega
  have h0 := snapshot_getElem s' y.toNat x.toNat 0 hyn hxn (by omega)
  have h1 := snapshot_getElem s' y.toNat x.toNat 1 hyn hxn (by omega)
  have h2 := snapshot_getElem s' y.toNat x.toNat 2 hyn hxn (by omega)
  rw [hpix, hw] at h0 h1 h2
  refine ⟨?_, ?_, ?_⟩
  · have := h0
    rw [Nat.add_zero] at this
    rw [this]
    simp [Nat.mod_eq_of_lt (mask8_lt _)]
  · rw [h1]
    simp [Nat.mod_eq_of_lt (mask8_lt _)]
  · rw [h2]
    simp [Nat.mod_eq_of_lt (mask8_lt _)]

/-- Witness for C1 (amended): a 16×16 panel, pixel `(2, 1)`, colour
`(300, -1, 64)` — stored as `(300 % 256, 255, 64) = (44, 255, 64)`. -/
theorem c1_update_pixel_snapshot_witness :
    (framebuffer_rgb_bytes (update_pixel (initAnim 16 16) 2 1 (300, -1, 64))).1[
        3 * (1 * 16 + 2)]? = some 44 ∧
      (framebuffer_rgb_bytes (update_pixel (initAnim 16 16) 2 1 (300, -1, 64))).1[
        3 * (1 * 16 + 2) + 1]? = some 255 ∧
      (framebuffer_rgb_bytes (update_pixel (initAnim 16 16) 2 1 (300, -1, 64))).1[
        3 * (1 * 16 + 2) + 2]? = some 64 :=
  c1_update_pixel_snapshot (initAnim 16 16) 2 1 (300, -1, 64)
    (by decide) (by decide) (by decide) (by decide) (by decide) (by decide)

/-- C7 — For every out-of-bounds coordinate and any colour, `update_pixel`
leaves the framebuffer unchanged: the snapshot after equals the snapshot
before, byte for byte (the embedding is a total function, so no exception
is possible). -/
theorem c7_update_pixel_oob (s : AnimState) (x y : Int) (c : Int × Int × Int)
    (h : x < 0 ∨ (s.width : Int) ≤ x ∨ y < 0 ∨ (s.height : Int) ≤ y) :
    framebuffer_rgb_bytes (update_pixel s x y c) = framebuffer_rgb_bytes s := by
  have hcond : ¬(0 ≤ x ∧ x < (s.width : Int) ∧ 0 ≤ y ∧ y < (s.height : Int)) := by
    rcases h with h | h | h | h <;> intro hc <;> omega
  unfold update_pixel
  rw [if_neg hcond]
  rfl

/-- Witness for C7: `x = -1` on a 16×16 panel. -/
theorem c7_update_pixel_oob_witness :
    framebuffer_rgb_bytes (update_pixel (initAnim 16 16) (-1) 0 (9, 9, 9)) =
      framebuffer_rgb_bytes (initAnim 16 16) :=
  c7_update_pixel_oob (initAnim 16 16) (-1) 0 (9, 9, 9) (Or.inl (by decide))

/-- C9 — `update_pixel` sets the dirty event unconditionally: the
`_dirty_evt.set()` call sits outside the bounds check, so even an
out-of-bounds call marks the framebuffer dirty. -/
theorem c9_update_pixel_dirty (s : AnimState) (x y : Int) (c : Int × Int × Int) :
    (update_pixel s x y c).dirty = true := by
  unfold update_pixel
  by_cases hcond : 0 ≤ x ∧ x < (s.width : Int) ∧ 0 ≤ y ∧ y < (s.height : Int) <;>
    simp [hcond]

/-- C10 — `set_mode` accepts exactly `"static"`, `"animation"` and
`"draw"`; any other string leaves the mode unchanged (and the embedding is
total, so the call never fails). -/
theorem c10_set_mode (s : AnimState) (m : String) :
    (set_mode s m).mode =
      if m = "static" ∨ m = "animation" ∨ m = "draw" then m else s.mode := by
  unfold set_mode
  by_cases h : m = "static" ∨ m = "animation" ∨ m = "draw" <;> simp [h]

/-- No framebuffer operation changes the dimensions. -/
theorem applyOp_width (s : AnimState) (op : AnimOp) : (applyOp s op).width = s.width := by
  cases op with
  | upd x y c =>
    show (update_pixel s x y c).width = s.width
    unfold update_pixel
    by_cases hcond : 0 ≤ x ∧ x < (s.width : Int) ∧ 0 ≤ y ∧ y < (s.height : Int) <;>
      simp [hcond]
  | clear => rfl
  | anim t => rfl

theorem applyOp_height (s : AnimState) (op : AnimOp) : (applyOp s op).height = s.height := by
  cases op with
  | upd x y c =>
    show (update_pixel s x y c).height = s.height
    unfold update_pixel
    by_cases hcond : 0 ≤ x ∧ x < (s.width : Int) ∧ 0 ≤ y ∧ y < (s.height : Int) <;>
      simp [hcond]
  | clear => rfl
  | anim t => rfl

theorem foldl_applyOp_width (ops : List AnimOp) :
    ∀ s : AnimState, (ops.foldl applyOp s).width = s.width := by
  induction ops with
  | nil => intro s; rfl
  | cons op rest ih =>
    intro s
    rw [List.foldl_cons, ih, applyOp_width]

theorem foldl_applyOp_height (ops : List AnimOp) :
    ∀ s : AnimState, (ops.foldl applyOp s).height = s.height := by
  induction ops with
  | nil => intro s; rfl
  | cons op rest ih =>
    intro s
    rw [List.foldl_cons, ih, applyOp_height]

/-- Every framebuffer operation keeps all stored channels 8-bit. -/
theorem applyOp_chanOK (s : AnimState) (op : AnimOp)
    (h : ∀ row ∈ s.frame, ∀ p ∈ row, chanOK p) :
    ∀ row ∈ (applyOp s op).frame, ∀ p ∈ row, chanOK p := by
  cases op with
  | upd x y c =>
    show ∀ row ∈ (update_pixel s x y c).frame, ∀ p ∈ row, chanOK p
    unfold update_pixel
    by_cases hcond : 0 ≤ x ∧ x < (s.width : Int) ∧ 0 ≤ y ∧ y < (s.height : Int)
    · rw [if_pos hcond]
      simp only
      intro row hrow p hp
      rcases List.mem_or_eq_of_mem_set hrow with hrow' | rfl
      · exact h row hrow' p hp
      · rcases List.mem_or_eq_of_mem_set hp with hp' | rfl
        · by_cases hyn : y.toNat < s.frame.length
          · have hmem : s.frame.getD y.toNat [] ∈ s.frame := by
              rw [List.getD_eq_getElem s.frame [] hyn]
              exact List.getElem_mem hyn
            exact h _ hmem p hp'
          · rw [List.getD_eq_default] at hp'
            · simp at hp'
            · omega
        · exact ⟨mask8_lt _, mask8_lt _, mask8_lt _⟩
    · rw [if_neg hcond]
      exact h
  | clear =>
    show ∀ row ∈ (clear_panel s).frame, ∀ p ∈ row, chanOK p
    unfold clear_panel
    simp only
    intro row hrow p hp
    obtain ⟨row0, _, rfl⟩ := List.mem_map.mp hrow
    obtain ⟨p0, _, rfl⟩ := List.mem_map.mp hp
    exact ⟨by norm_num, by norm_num, by norm_num⟩
  | anim t =>
    show ∀ row ∈ (animate_step s t).frame, ∀ p ∈ row, chanOK p
    unfold animate_step
    simp only
    intro row hrow p hp
    obtain ⟨row0, _, rfl⟩ := List.mem_map.mp hrow
    obtain ⟨p0, _, rfl⟩ := List.mem_map.mp hp
    have h3 : t % 3 = 0 ∨ t % 3 = 1 ∨ t % 3 = 2 := by omega
    rcases h3 with h3 | h3 | h3 <;> simp [animColors, h3, chanOK]

/-- The snapshot has one byte per channel of the `height × width` grid. -/
theorem snapshot_length (s : AnimState) :
    (framebuffer_rgb_bytes s).1.length = s.height * (s.width * 3) := by
  show ((List.range s.height).flatMap fun y =>
      (List.range s.width).flatMap fun x =>
        [(pixelAt s y x).1 % 256, (pixelAt s y x).2.1 % 256,
          (pixelAt s y x).2.2 % 256]).length = _
  refine length_flatMap_range _ (s.width * 3) (fun t => ?_) s.height
  exact length_flatMap_range (fun xx =>
    [(pixelAt s t xx).1 % 256, (pixelAt s t xx).2.1 % 256,
      (pixelAt s t xx).2.2 % 256]) 3 (fun _ => rfl) _

/-- Every snapshot byte is masked to 8 bits. -/
theorem snapshot_bytes_lt (s : AnimState) :
    ∀ b ∈ (framebuffer_rgb_bytes s).1, b < 256 := by
  intro b hb
  simp only [framebuffer_rgb_bytes, List.mem_flatMap, List.mem_range] at hb
  obtain ⟨y, -, x, -, hb⟩ := hb
  simp only [List.mem_cons, List.mem_singleton] at hb
  rcases hb with rfl | rfl | rfl | habs
  · exact Nat.mod_lt _ (by norm_num)
  · exact Nat.mod_lt _ (by norm_num)
  · exact Nat.mod_lt _ (by norm_num)
  · simp at habs

/-- C8 — Starting from the all-black framebuffer, after any sequence of
`update_pixel` / `clear_panel` / `_animate` operations every stored channel
is an 8-bit value, and `framebuffer_rgb_bytes` returns a well-formed byte
string of length exactly `3*W*H` together with the fixed `W` and `H`. -/
theorem c8_framebuffer_invariant (w h : Nat) (ops : List AnimOp) :
    (∀ row ∈ (ops.foldl applyOp (initAnim w h)).frame, ∀ p ∈ row, chanOK p) ∧
      (framebuffer_rgb_bytes (ops.foldl applyOp (initAnim w h))).1.length = 3 * (w * h) ∧
      (∀ b ∈ (framebuffer_rgb_bytes (ops.foldl applyOp (initAnim w h))).1, b < 256) ∧
      (framebuffer_rgb_bytes (ops.foldl applyOp (initAnim w h))).2.1 = w ∧
      (framebuffer_rgb_bytes (ops.foldl applyOp (initAnim w h))).2.2 = h := by
  refine ⟨?_, ?_, snapshot_bytes_lt _, ?_, ?_⟩
  · have key : ∀ (l : List AnimOp) (s : AnimState),
        (∀ row ∈ s.frame, ∀ p ∈ row, chanOK p) →
        ∀ row ∈ (l.foldl applyOp s).frame, ∀ p ∈ row, chanOK p := by
      intro l
      induction l with
      | nil => intro s hs; exact hs
      | cons op rest ih =>
        intro s hs
        rw [List.foldl_cons]
        exact ih _ (applyOp_chanOK s op hs)
    refine key ops (initAnim w h) ?_
    intro row hrow p hp
    rw [List.eq_of_mem_replicate hrow] at hp
    rw [List.eq_of_mem_replicate hp]
    exact ⟨by norm_num, by norm_num, by norm_num⟩
  · rw [snapshot_length, foldl_applyOp_width, foldl_applyOp_height]
    show h * (w * 3) = 3 * (w * h)
    ring
  · show (ops.foldl applyOp (initAnim w h)).width = w
    rw [foldl_applyOp_width]
    rfl
  · show (ops.foldl applyOp (initAnim w h)).height = h
    rw [foldl_applyOp_height]
    rfl

/-- C3 — `_delta_indices` returns an ascending list; with equal buffer
lengths it contains exactly the pixel indices whose RGB triplets differ,
and with different lengths it is every pixel index of the new buffer. -/
theorem c3_delta_indices (oldBuf newBuf : List Nat)
    (_h3o : oldBuf.length % 3 = 0) (_h3n : newBuf.length % 3 = 0) :
    (_delta_indices oldBuf newBuf).Pairwise (· < ·) ∧
      (oldBuf.length = newBuf.length →
        ∀ i, i ∈ _delta_indices oldBuf newBuf ↔
          i < newBuf.length / 3 ∧ tripletAt oldBuf i ≠ tripletAt newBuf i) ∧
      (oldBuf.length ≠ newBuf.length →
        _delta_indices oldBuf newBuf = List.range (newBuf.length / 3)) := by
  refine ⟨?_, ?_, ?_⟩
  · unfold _delta_indices
    by_cases hcond : oldBuf = [] ∨ oldBuf.length ≠ newBuf.length
    · rw [if_pos hcond]
      exact List.pairwise_lt_range _
    · rw [if_neg hcond]
      exact List.Pairwise.filter _ (List.pairwise_lt_range _)
  · intro hlen i
    unfold _delta_indices
    by_cases hnil : oldBuf = []
    · have hz : newBuf.length = 0 := by rw [← hlen, hnil]; rfl
      rw [if_pos (Or.inl hnil)]
      simp [hz]
    · rw [if_neg (by push_neg; exact ⟨hnil, hlen⟩)]
      rw [List.mem_filter, List.mem_range, decide_eq_true_iff]
  · intro hne
    unfold _delta_indices
    rw [if_pos (Or.inr hne)]

/-- Witness for C3: `old = [0,0,0, 1,1,1]`, `new = [0,0,0, 9,1,1]` — only
pixel 1 differs; and against a longer buffer every index is returned. -/
theorem c3_delta_indices_witness :
    ((_delta_indices [0, 0, 0, 1, 1, 1] [0, 0, 0, 9, 1, 1]).Pairwise (· < ·) ∧
        (1 ∈ _delta_indices [0, 0, 0, 1, 1, 1] [0, 0, 0, 9, 1, 1] ↔
          1 < 2 ∧ tripletAt [0, 0, 0, 1, 1, 1] 1 ≠ tripletAt [0, 0, 0, 9, 1, 1] 1)) ∧
      _delta_indices [0, 0, 0, 1, 1, 1] [0, 0, 0] = List.range 1 := by
  have h1 := c3_delta_indices [0, 0, 0, 1, 1, 1] [0, 0, 0, 9, 1, 1] (by decide) (by decide)
  have h2 := c3_delta_indices [0, 0, 0, 1, 1, 1] [0, 0, 0] (by decide) (by decide)
  exact ⟨⟨h1.1, h1.2.1 (by decide) 1⟩, h2.2.2 (by decide)⟩

/-! ## RLE encoder lemmas -/

theorem chunks3_flatten (l : List Nat) : (chunks3 l).flatten = l := by
  induction l using chunks3.induct with
  | case1 => rw [chunks3]; rfl
  | case2 a l ih =>
    rw [chunks3, List.flatten_cons, ih]
    simp

theorem chunks3_length (l : List Nat) : ∀ n, l.length = 3 * n → (chunks3 l).length = n := by
  induction l using chunks3.induct with
  | case1 => intro n hn; rw [chunks3]; simp at hn ⊢; omega
  | case2 a l ih =>
    intro n hn
    rw [chunks3]
    simp only [List.length_cons]
    have hd : (l.drop 2).length = l.length - 2 := by simp
    have hn1 : 1 ≤ n := by simp at hn; omega
    rw [ih (n - 1) (by simp at hn ⊢; omega)]
    omega

theorem chunks3_ne_nil (l : List Nat) (h : l ≠ []) : chunks3 l ≠ [] := by
  cases l with
  | nil => simp at h
  | cons a t => rw [chunks3]; simp

/-- Expanding the runs emitted by `rleLoop` restores the open run followed
by the unprocessed pixels. -/
theorem expandPix_rleLoop :
    ∀ (rest : List (List Nat)) (cur : List Nat) (run : Nat),
      expandPix (rleLoop rest cur run) = List.replicate run cur ++ rest := by
  intro rest
  induction rest with
  | nil =>
    intro cur run
    simp [rleLoop, expandPix]
  | cons nxt rest ih =>
    intro cur run
    rw [rleLoop]
    by_cases hc : nxt = cur ∧ run < 255
    · rw [if_pos hc, ih, List.replicate_succ' run cur, hc.1]
      simp
    · rw [if_neg hc]
      unfold expandPix at ih ⊢
      rw [List.flatMap_cons, ih]
      simp

/-- Every run emitted by `rleLoop` has length in `[1, 255]` (boundaries are
forced at 255), provided the open run does. -/
theorem rleLoop_run_bounds :
    ∀ (rest : List (List Nat)) (cur : List Nat) (run : Nat), 1 ≤ run → run ≤ 255 →
      ∀ rc ∈ rleLoop rest cur run, 1 ≤ rc.1 ∧ rc.1 ≤ 255 := by
  intro rest
  induction rest with
  | nil =>
    intro cur run h1 h2 rc hrc
    rw [rleLoop] at hrc
    simp at hrc
    subst hrc
    exact ⟨h1, h2⟩
  | cons nxt rest ih =>
    intro cur run h1 h2 rc hrc
    rw [rleLoop] at hrc
    by_cases hc : nxt = cur ∧ run < 255
    · rw [if_pos hc] at hrc
      exact ih cur (run + 1) (by omega) (by omega) rc hrc
    · rw [if_neg hc] at hrc
      rcases List.mem_cons.mp hrc with rfl | hrc'
      · exact ⟨h1, h2⟩
      · exact ih nxt 1 (by omega) (by omega) rc hrc'

/-- The run lengths emitted by `rleLoop` sum to the number of pixels
consumed. -/
theorem rleLoop_sum :
    ∀ (rest : List (List Nat)) (cur : List Nat) (run : Nat),
      ((rleLoop rest cur run).map Prod.fst).sum = run + rest.length := by
  intro rest
  induction rest with
  | nil =>
    intro cur run
    simp [rleLoop]
  | cons nxt rest ih =>
    intro cur run
    rw [rleLoop]
    by_cases hc : nxt = cur ∧ run < 255
    · rw [if_pos hc, ih]
      simp
      omega
    · rw [if_neg hc]
      simp only [List.map_cons, List.sum_cons, ih]
      simp
      omega

/-- Concatenating the `h` row slices of a buffer restores the buffer. -/
theorem flatten_row_slices (w : Nat) :
    ∀ (h : Nat) (buf : List Nat), buf.length = h * (w * 3) →
      ((List.range h).map fun y => (buf.drop (y * w * 3)).take (w * 3)).flatten = buf := by
  intro h
  induction h with
  | zero =>
    intro buf hbuf
    simp at hbuf
    simp [hbuf]
  | succ m ih =>
    intro buf hbuf
    have hsplit : (m + 1) * (w * 3) = w * 3 + m * (w * 3) := by ring
    rw [List.range_succ_eq_map, List.map_cons, List.map_map, List.flatten_cons]
    have hslice : ∀ y : Nat,
        ((fun y => (buf.drop (y * w * 3)).take (w * 3)) ∘ Nat.succ) y =
          (fun y => ((buf.drop (w * 3)).drop (y * w * 3)).take (w * 3)) y := by
      intro y
      simp only [Function.comp]
      rw [List.drop_drop]
      congr 2
      simp only [Nat.succ_eq_add_one]
      ring
    have hdlen : (buf.drop (w * 3)).length = m * (w * 3) := by
      rw [List.length_drop, hbuf, hsplit]
      exact Nat.add_sub_cancel_left _ _
    rw [List.map_congr_left fun y _ => hslice y, ih (buf.drop (w * 3)) hdlen]
    simp

/-- C2 — Round-trip of the row RLE encoder: expanding
`_encode_rle_rows buf w h` reproduces `buf`; every run length lies in
`[1, 255]`; and the run lengths of each row sum to `w`. -/
theorem c2_encode_rle_rows (buf : List Nat) (w h : Nat)
    (hw : 1 ≤ w) (hlen : buf.length = 3 * (w * h)) :
    decode_rle (_encode_rle_rows buf w h) = buf ∧
      (∀ row ∈ _encode_rle_rows buf w h, ∀ rc ∈ row, 1 ≤ rc.1 ∧ rc.1 ≤ 255) ∧
      (∀ row ∈ _encode_rle_rows buf w h, (row.map Prod.fst).sum = w) := by
  have hslice_len : ∀ y, y < h → ((buf.drop (y * w * 3)).take (w * 3)).length = w * 3 := by
    intro y hy
    simp only [List.length_take, List.length_drop, hlen]
    have : y * w * 3 + w * 3 ≤ 3 * (w * h) := by
      have h1 : (y + 1) * (w * 3) ≤ h * (w * 3) :=
        Nat.mul_le_mul_right _ (by omega)
      calc y * w * 3 + w * 3 = (y + 1) * (w * 3) := by ring
      _ ≤ h * (w * 3) := h1
      _ = 3 * (w * h) := by ring
    omega
  have hchunks : ∀ y, y < h → ∃ c cs,
      chunks3 ((buf.drop (y * w * 3)).take (w * 3)) = c :: cs ∧ cs.length = w - 1 := by
    intro y hy
    have hne : (buf.drop (y * w * 3)).take (w * 3) ≠ [] := by
      intro hnil
      have := hslice_len y hy
      rw [hnil] at this
      simp at this
      omega
    have hlen3 : ((buf.drop (y * w * 3)).take (w * 3)).length = 3 * w := by
      rw [hslice_len y hy]; ring
    have hclen := chunks3_length _ w hlen3
    cases hch : chunks3 ((buf.drop (y * w * 3)).take (w * 3)) with
    | nil => exact absurd hch (chunks3_ne_nil _ hne)
    | cons c cs =>
      refine ⟨c, cs, rfl, ?_⟩
      rw [hch] at hclen
      simp at hclen
      omega
  refine ⟨?_, ?_, ?_⟩
  · unfold decode_rle _encode_rle_rows
    rw [List.map_map]
    have hpoint : ∀ y ∈ List.range h,
        (expandRow ∘ fun y =>
          (match chunks3 ((buf.drop (y * w * 3)).take (w * 3)) with
            | [] => [(1, (buf.drop (y * w * 3)).take 3)]
            | c :: cs => rleLoop cs c 1)) y =
          (fun y => (buf.drop (y * w * 3)).take (w * 3)) y := by
      intro y hy
      rw [List.mem_range] at hy
      obtain ⟨c, cs, hch, -⟩ := hchunks y hy
      simp only [Function.comp, hch]
      unfold expandRow
      rw [expandPix_rleLoop]
      simp only [List.replicate_succ, List.replicate_zero, List.nil_append,
        List.singleton_append]
      rw [← hch, chunks3_flatten]
    rw [List.map_congr_left hpoint]
    exact flatten_row_slices w h buf (by rw [hlen]; ring)
  · intro row hrow rc hrc
    unfold _encode_rle_rows at hrow
    obtain ⟨y, hy, hrow'⟩ := List.mem_map.mp hrow
    rw [List.mem_range] at hy
    obtain ⟨c, cs, hch, -⟩ := hchunks y hy
    rw [hch] at hrow'
    rw [← hrow'] at hrc
    exact rleLoop_run_bounds cs c 1 (by omega) (by omega) rc hrc
  · intro row hrow
    unfold _encode_rle_rows at hrow
    obtain ⟨y, hy, hrow'⟩ := List.mem_map.mp hrow
    rw [List.mem_range] at hy
    obtain ⟨c, cs, hch, hcs⟩ := hchunks y hy
    rw [hch] at hrow'
    rw [← hrow', rleLoop_sum]
    omega

/-- Witness for C2: a 2×2 buffer with one uniform row and one two-colour
row. -/
theorem c2_encode_rle_rows_witness :
    decode_rle (_encode_rle_rows [5, 5, 5, 5, 5, 5, 1, 2, 3, 4, 5, 6] 2 2) =
        [5, 5, 5, 5, 5, 5, 1, 2, 3, 4, 5, 6] ∧
      (∀ row ∈ _encode_rle_rows [5, 5, 5, 5, 5, 5, 1, 2, 3, 4, 5, 6] 2 2,
        ∀ rc ∈ row, 1 ≤ rc.1 ∧ rc.1 ≤ 255) ∧
      (∀ row ∈ _encode_rle_rows [5, 5, 5, 5, 5, 5, 1, 2, 3, 4, 5, 6] 2 2,
        (row.map Prod.fst).sum = 2) :=
  c2_encode_rle_rows [5, 5, 5, 5, 5, 5, 1, 2, 3, 4, 5, 6] 2 2 (by decide) (by decide)

/-- C4 — Exactly one preview variant per broadcast tick, and the sparse
delta is chosen iff the previously-sent dimensions match the snapshot and
the changed-pixel count is strictly between 0 and 40% of the pixel count
(`len(diffs) < npx * 0.4` is `5 * len(diffs) < 2 * npx` exactly).  The
choice is a pure function of the inputs, hence deterministic. -/
theorem c4_broadcast_variant (st : MirrorState) (buf : List Nat) (w h : Nat) :
    (isDelta (broadcastTick st buf w h).1 = true ↔
        st.last_w = w ∧ st.last_h = h ∧
          0 < (_delta_indices st.last_buf buf).length ∧
          5 * (_delta_indices st.last_buf buf).length < 2 * (buf.length / 3)) ∧
      (isDelta (broadcastTick st buf w h).1 = true ∨
        isFrameRle (broadcastTick st buf w h).1 = true) ∧
      ¬(isDelta (broadcastTick st buf w h).1 = true ∧
        isFrameRle (broadcastTick st buf w h).1 = true) := by
  unfold broadcastTick
  by_cases hc : st.last_w = w ∧ st.last_h = h ∧
      0 < (_delta_indices st.last_buf buf).length ∧
      5 * (_delta_indices st.last_buf buf).length < 2 * (buf.length / 3)
  · simp only [if_pos hc]
    simp [isDelta, isFrameRle, hc]
  · simp only [if_neg hc]
    simp [isDelta, isFrameRle, hc]

/-- C5 — The device frame built by `send_frame`: total length
`7 + 3*pixelCount`, sync header `AB CD F1 00`, pixel count little-endian in
bytes 4–5 (faithful up to 65535 pixels), brightness in byte 6. -/
theorem c5_send_frame (payload_grb : List Nat) (brightness : Nat)
    (_hne : payload_grb ≠ []) (h3 : payload_grb.length % 3 = 0) (hb : brightness < 256) :
    (send_frame payload_grb brightness).length = 7 + 3 * (payload_grb.length / 3) ∧
      (send_frame payload_grb brightness)[0]? = some 0xAB ∧
      (send_frame payload_grb brightness)[1]? = some 0xCD ∧
      (send_frame payload_grb brightness)[2]? = some 0xF1 ∧
      (send_frame payload_grb brightness)[3]? = some 0x00 ∧
      (send_frame payload_grb brightness)[4]? = some (payload_grb.length / 3 % 256) ∧
      (send_frame payload_grb brightness)[5]? =
        some (payload_grb.length / 3 / 256 % 256) ∧
      (payload_grb.length / 3 < 65536 →
        payload_grb.length / 3 % 256 + 256 * (payload_grb.length / 3 / 256 % 256) =
          payload_grb.length / 3) ∧
      (send_frame payload_grb brightness)[6]? = some brightness := by
  have hdvd : 3 ∣ payload_grb.length := Nat.dvd_of_mod_eq_zero h3
  have h1 : (send_frame payload_grb brightness).length =
      7 + 3 * (payload_grb.length / 3) := by
    unfold send_frame
    simp only [List.length_append, List.length_cons, List.length_nil]
    rw [Nat.mul_div_cancel' hdvd]
  have h8 : payload_grb.length / 3 < 65536 →
      payload_grb.length / 3 % 256 + 256 * (payload_grb.length / 3 / 256 % 256) =
        payload_grb.length / 3 := by
    intro hlt
    omega
  have h9 : (send_frame payload_grb brightness)[6]? = some brightness := by
    simp [send_frame, Nat.mod_eq_of_lt hb]
  exact ⟨h1, rfl, rfl, rfl, rfl, rfl, rfl, h8, h9⟩

/-- Witness for C5: a one-pixel payload `[1, 2, 3]` at brightness 30. -/
theorem c5_send_frame_witness :
    (send_frame [1, 2, 3] 30).length = 7 + 3 * 1 ∧
      (send_frame [1, 2, 3] 30)[0]? = some 0xAB ∧
      (send_frame [1, 2, 3] 30)[1]? = some 0xCD ∧
      (send_frame [1, 2, 3] 30)[2]? = some 0xF1 ∧
      (send_frame [1, 2, 3] 30)[3]? = some 0x00 ∧
      (send_frame [1, 2, 3] 30)[4]? = some 1 ∧
      (send_frame [1, 2, 3] 30)[5]? = some 0 ∧
      (1 < 65536 → 1 % 256 + 256 * (1 / 256 % 256) = 1) ∧
      (send_frame [1, 2, 3] 30)[6]? = some 30 := by
  have h := c5_send_frame [1, 2, 3] 30 (by decide) (by decide) (by decide)
  exact h

/-- `build_solid_grb` on black is an all-zero payload. -/
theorem build_solid_grb_black (w h su : Nat) :
    build_solid_grb w h su (0, 0, 0) = List.replicate (w * h * su * 3) 0 := by
  unfold build_solid_grb
  generalize w * h * su = n
  induction n with
  | zero => rfl
  | succ m ih =>
    rw [List.replicate_succ, List.flatten_cons, ih]
    have harith : (m + 1) * 3 = 3 + m * 3 := by ring
    rw [harith, List.replicate_add]
    rfl

/-- With the stop signal set, the main worker loop of `LEDThread.run` sends
nothing. -/
theorem mainLoop_stopped (env : RunEnv) (cfg : LEDConfig)
    (hstop : ∀ n, env.stop n = true) :
    ∀ (fuel n : Nat) (last : Option String), mainLoop env cfg fuel n last = [] := by
  intro fuel n last
  cases fuel with
  | zero => rfl
  | succ f => simp [mainLoop, hstop n]

/-- C6 — If the shared stop signal is set before `LEDThread.run` begins its
first iteration (and hence, events never being cleared, at every poll), and
the serial transport is available, then the run sends exactly one frame:
the all-pixels-off solid frame from the `finally` block, after which the
loop exits (the trace is finite by construction). -/
theorem c6_stop_before_start (env : RunEnv) (cfg : LEDConfig) (fuel : Nat)
    (hstop : ∀ n, env.stop n = true) :
    ledRun env cfg true fuel =
      [send_frame (List.replicate (cfg.width * cfg.height * cfg.strips_used * 3) 0)
        cfg.brightness] := by
  unfold ledRun
  rw [if_pos rfl, mainLoop_stopped env cfg hstop]
  unfold clearFrame setAllFrame
  rw [build_solid_grb_black]
  rfl

/-- Witness for C6: a 16×16 single-strip panel, stop always set. -/
theorem c6_stop_before_start_witness :
    ledRun ⟨fun _ => true, fun _ => "off", fun _ => false, fun _ => false⟩
        ⟨16, 16, 1, 30⟩ true 3 =
      [send_frame (List.replicate 768 0) 30] :=
  c6_stop_before_start ⟨fun _ => true, fun _ => "off", fun _ => false, fun _ => false⟩
    ⟨16, 16, 1, 30⟩ 3 (fun _ => rfl)

end Alis
